import Mathlib

/-!
Verification of the RESP codec and replication logic of a Redis server
implementation (codecrafters-redis, Rust).  The Rust sources are embedded
shallowly: bytes are lists of naturals, the async reader becomes a pure
function over the buffered byte list, and the fallible/panicking paths
become Option.  Each definition carries a comment pointing at the Rust
item it embeds.
-/

namespace RedisProof

/-- Bytes on the wire: a list of byte values.  Embeds the bytes::Bytes /
BytesMut buffers of the Rust code. -/
abbrev ByteSeq := List Nat

/-- Byte list of an ASCII string literal, used to transcribe the literals
appearing in the Rust source. -/
def ascii (s : String) : ByteSeq := s.toList.map Char.toNat

/-- Embeds enum RESPValue from src/redis/resp/mod.rs (SimpleString,
SimpleError, Integer(i64), BulkString, NullBulkString, Array, NullArray).
The i64 payload becomes Int; the i64 range shows up as hypotheses where
the claims need it. -/
inductive RESPValue where
  | SimpleString (bytes : ByteSeq)
  | SimpleError (bytes : ByteSeq)
  | Integer (value : Int)
  | BulkString (bytes : ByteSeq)
  | NullBulkString
  | Array (values : List RESPValue)
  | NullArray

/-- Fueled helper computing the decimal digit bytes of a positive number,
most significant digit first; fuel ≥ n makes it total.  Together with
natBytes this embeds the usize::to_string calls of the encoder. -/
def natBytesAux : Nat → Nat → ByteSeq
  | 0, _ => []
  | _ + 1, 0 => []
  | fuel + 1, n + 1 => natBytesAux fuel ((n + 1) / 10) ++ [48 + (n + 1) % 10]

/-- Decimal digit bytes of a natural number, most significant first:
the bytes of usize::to_string / the digit part of i64::to_string. -/
def natBytes (n : Nat) : ByteSeq :=
  if n = 0 then [48] else natBytesAux n n

/-- Decimal byte rendering of an i64 value: i64::to_string as bytes. -/
def intBytes (n : Int) : ByteSeq :=
  if n < 0 then 45 :: natBytes n.natAbs else natBytes n.toNat

/-- Numeric value of a string of ASCII digit bytes, as str::parse computes
it (fold of 10 * acc + digit). -/
def digitsToNat (ds : ByteSeq) : Nat :=
  ds.foldl (fun acc d => 10 * acc + (d - 48)) 0

/-- u8::is_ascii_digit. -/
def isDigitByte (b : Nat) : Bool := 48 ≤ b && b ≤ 57

mutual

/-- Embeds impl From RESPValue for Bytes in src/redis/resp/mod.rs (the
byte-level encoder in src/redis/resp/encoding/value.rs is textually the
same algorithm and is covered by this single definition): tag byte, then
payload/length digits, CRLF-terminated; null variants are the fixed
five-byte sequences. -/
def encodeValue : RESPValue → ByteSeq
  | .SimpleString bytes => 43 :: (bytes ++ [13, 10])
  | .SimpleError bytes => 45 :: (bytes ++ [13, 10])
  | .Integer value => 58 :: (intBytes value ++ [13, 10])
  | .BulkString bytes => 36 :: (natBytes bytes.length ++ [13, 10] ++ bytes ++ [13, 10])
  | .NullBulkString => [36, 45, 49, 13, 10]
  | .Array values => 42 :: (natBytes values.length ++ [13, 10] ++ encodeList values)
  | .NullArray => [42, 45, 49, 13, 10]

/-- Concatenated encodings of the elements of an array (the for_each over
values.into_iter().map(Bytes::from) in the encoder). -/
def encodeList : List RESPValue → ByteSeq
  | [] => []
  | v :: vs => encodeValue v ++ encodeList vs

end

theorem digitsToNat_append_digit (xs : ByteSeq) (b : Nat) :
    digitsToNat (xs ++ [b]) = 10 * digitsToNat xs + (b - 48) := by
  simp [digitsToNat]

theorem natBytesAux_spec : ∀ fuel n, 0 < n → n ≤ fuel →
    digitsToNat (natBytesAux fuel n) = n := by
  intro fuel
  induction fuel with
  | zero => intro n h1 h2; omega
  | succ f ih =>
    intro n h1 h2
    match n, h1 with
    | n + 1, _ =>
      rw [natBytesAux, digitsToNat_append_digit]
      rcases Nat.eq_zero_or_pos ((n + 1) / 10) with h | h
      · have h10 : n + 1 < 10 := by omega
        simp [h, natBytesAux]
        cases f <;> simp [natBytesAux, digitsToNat] <;> omega
      · rw [ih _ h (by omega)]
        omega

theorem digitsToNat_natBytes (n : Nat) : digitsToNat (natBytes n) = n := by
  by_cases h : n = 0
  · simp [natBytes, h, digitsToNat]
  · simp [natBytes, h, natBytesAux_spec n n (by omega) (by omega)]

theorem natBytesAux_digits : ∀ fuel n b, b ∈ natBytesAux fuel n →
    isDigitByte b = true := by
  intro fuel
  induction fuel with
  | zero => intro n b h; simp [natBytesAux] at h
  | succ f ih =>
    intro n b h
    match n with
    | 0 => simp [natBytesAux] at h
    | n + 1 =>
      rw [natBytesAux] at h
      rcases List.mem_append.mp h with h | h
      · exact ih _ _ h
      · have : b = 48 + (n + 1) % 10 := by simpa using h
        have : (n + 1) % 10 < 10 := Nat.mod_lt _ (by omega)
        simp [isDigitByte]
        omega

theorem natBytes_digits (n : Nat) : ∀ b ∈ natBytes n, isDigitByte b = true := by
  intro b h
  by_cases h0 : n = 0
  · simp [natBytes, h0] at h
    simp [h, isDigitByte]
  · simp [natBytes, h0] at h
    exact natBytesAux_digits n n b h

theorem natBytes_ne_nil (n : Nat) : natBytes n ≠ [] := by
  by_cases h0 : n = 0
  · simp [natBytes, h0]
  · match n, h0 with
    | n + 1, _ => simp [natBytes, natBytesAux]

/-- Result of the check phase of RESPReader (src/redis/resp/resp_reader.rs):
fail embeds Err(..) (read_value gives up), more embeds Ok(false) (need more
bytes), pass embeds Ok(true) with the cursor moved past the value; in this
suffix-passing embedding the cursor position is carried as the remaining
byte list. -/
inductive CheckResult where
  | fail
  | more
  | pass (rest : ByteSeq)

/-- Shared embedding of RESPReader::check_read_until (scan the cursor
forward until the predicate holds, leaving it on the matching byte) and of
the release-mode behaviour of RESPReader::read_until (copy the bytes before
the first matching byte out of the buffer).  none: the scan runs off the
end of the buffer (Ok(false) in check, an out-of-bounds panic in parse). -/
def read_until (p : Nat → Bool) : ByteSeq → Option (ByteSeq × ByteSeq)
  | [] => none
  | b :: bs =>
      if p b then some ([], b :: bs)
      else (read_until p bs).map (fun pr => (b :: pr.1, pr.2))

/-- True when RESPReader::read_until hits its usize underflow: the loop
does length -= 1 with length = 0 exactly when the very first byte already
satisfies the predicate (the subtraction wraps; copy_to_bytes(length + 1)
then wraps back to 0, so in release builds the call still returns the
empty slice). -/
def read_until_underflow (p : Nat → Bool) : ByteSeq → Bool
  | [] => false
  | b :: _ => p b

/-- RESPReader::check_crlf: consume a CR then a LF; a wrong byte is a hard
error, running out of buffer asks for more data. -/
def check_crlf : ByteSeq → CheckResult
  | [] => .more
  | [cr] => if cr = 13 then .more else .fail
  | cr :: lf :: rest2 =>
      if cr = 13 then (if lf = 10 then .pass rest2 else .fail) else .fail

/-- Outcome of the leading-sign match that opens check_resp_number,
check_resp_bulk_string and check_resp_array (and parse_number). -/
inductive SignResult where
  | fail
  | more
  | ok (is_positive : Bool) (rest : ByteSeq)

/-- The shared sign-handling prologue of the reader: a '+' or '-' byte is
consumed, a digit is left in place (cursor -= 1), anything else is an
error, an empty buffer asks for more. -/
def check_sign : ByteSeq → SignResult
  | [] => .more
  | b :: rest =>
      if b = 43 then .ok true rest
      else if b = 45 then .ok false rest
      else if isDigitByte b then .ok true (b :: rest)
      else .fail

/-- i64::MAX, the largest value str::parse::<i64> accepts for a string of
plain digits. -/
def i64MaxNat : Nat := 9223372036854775807

/-- Outcome of scanning the digit run of a length or integer in the check
phase. -/
inductive NumScan where
  | fail
  | more
  | ok (ds : ByteSeq) (rest : ByteSeq)

/-- The digit-run scan the check functions perform: check_read_until to
the first non-digit, then str::from_utf8 + str::parse::<i64> on the slice
between start and cursor; an empty run or a value above i64::MAX makes the
parse fail (this is an Err, not a need-more). -/
def scan_i64_digits (bs : ByteSeq) : NumScan :=
  match read_until (fun b => !isDigitByte b) bs with
  | none => .more
  | some (ds, rest) =>
      if ds.isEmpty || decide (i64MaxNat < digitsToNat ds) then .fail
      else .ok ds rest

/-- RESPReader::check_resp_simple_string: scan to the CR, then CRLF. -/
def check_resp_simple_string (bs : ByteSeq) : CheckResult :=
  match read_until (fun b => b == 13) bs with
  | none => .more
  | some (_, rest) => check_crlf rest

/-- RESPReader::check_resp_simple_error: same shape as simple strings. -/
def check_resp_simple_error (bs : ByteSeq) : CheckResult :=
  match read_until (fun b => b == 13) bs with
  | none => .more
  | some (_, rest) => check_crlf rest

/-- RESPReader::check_resp_number: optional sign, digit run parsed as i64
(sign discarded for the range test, as in the source, which parses only
the digit slice), then CRLF. -/
def check_resp_number (bs : ByteSeq) : CheckResult :=
  match check_sign bs with
  | .fail => .fail
  | .more => .more
  | .ok _ bs1 =>
      match scan_i64_digits bs1 with
      | .fail => .fail
      | .more => .more
      | .ok _ rest => check_crlf rest

/-- RESPReader::check_resp_bulk_string: sign, digit run, CRLF, then the
signed length decides: < -1 error, -1 done (null), otherwise the payload
must be fully buffered (buf.get(cursor + length - 1)) and be followed by
CRLF. -/
def check_resp_bulk_string (bs : ByteSeq) : CheckResult :=
  match check_sign bs with
  | .fail => .fail
  | .more => .more
  | .ok pos bs1 =>
      match scan_i64_digits bs1 with
      | .fail => .fail
      | .more => .more
      | .ok ds bs2 =>
          match check_crlf bs2 with
          | .fail => .fail
          | .more => .more
          | .pass bs3 =>
              let len : Int := if pos then (digitsToNat ds : Int) else -(digitsToNat ds : Int)
              if len < -1 then .fail
              else if len = -1 then .pass bs3
              else if bs3.length < len.toNat then .more
              else check_crlf (bs3.drop len.toNat)

/-- The element loop of check_resp_array: run the recursive check count
times, propagating the first non-pass outcome. -/
def check_elements (rec : ByteSeq → CheckResult) : Nat → ByteSeq → CheckResult
  | 0, bs => .pass bs
  | n + 1, bs =>
      match rec bs with
      | .pass rest => check_elements rec n rest
      | r => r

/-- RESPReader::check_resp_array: sign, digit run, CRLF, signed count:
< -1 error, -1 done (null), otherwise count recursive element checks. -/
def check_resp_array (rec : ByteSeq → CheckResult) (bs : ByteSeq) : CheckResult :=
  match check_sign bs with
  | .fail => .fail
  | .more => .more
  | .ok pos bs1 =>
      match scan_i64_digits bs1 with
      | .fail => .fail
      | .more => .more
      | .ok ds bs2 =>
          let len : Int := if pos then (digitsToNat ds : Int) else -(digitsToNat ds : Int)
          match check_crlf bs2 with
          | .fail => .fail
          | .more => .more
          | .pass bs3 =>
              if len < -1 then .fail
              else if len = -1 then .pass bs3
              else check_elements rec len.toNat bs3

/-- RESPReader::check: dispatch on the data tag byte; an empty buffer asks
for more, an unknown tag is an error. -/
def checkStep (rec : ByteSeq → CheckResult) : ByteSeq → CheckResult
  | [] => .more
  | t :: rest =>
      if t = 43 then check_resp_simple_string rest
      else if t = 45 then check_resp_simple_error rest
      else if t = 58 then check_resp_number rest
      else if t = 36 then check_resp_bulk_string rest
      else if t = 42 then check_resp_array rec rest
      else .fail

/-- Fueled closure of RESPReader::check: the fuel bounds the array nesting
depth (the Rust recursion is bounded by the buffer length). -/
def checkVal : Nat → ByteSeq → CheckResult
  | 0 => fun _ => .more
  | fuel + 1 => checkStep (checkVal fuel)

/-- RESPReader::parse_crlf: buf.advance(2), which panics when fewer than
two bytes remain (never reached after a successful check). -/
def parse_crlf : ByteSeq → Option ByteSeq
  | _ :: _ :: rest => some rest
  | _ => none

/-- i64-to-usize cast (length as usize) in parse_resp_bulk_string: two's
complement reinterpretation. -/
def usizeOfInt (i : Int) : Nat := (i % (2 ^ 64 : Int)).toNat

/-- RESPReader::parse_number: sign byte (anything else is unreachable!),
digit run via read_until, str::parse::<i64>().unwrap() (panics on an empty
run or overflow), then negate when the sign was '-'. -/
def parse_number : ByteSeq → Option (Int × ByteSeq)
  | [] => none
  | b :: rest =>
      let signed : Option (Bool × ByteSeq) :=
        if b = 43 then some (true, rest)
        else if b = 45 then some (false, rest)
        else if isDigitByte b then some (true, b :: rest)
        else none
      match signed with
      | none => none
      | some (pos, bs1) =>
          match read_until (fun c => !isDigitByte c) bs1 with
          | none => none
          | some (ds, rest2) =>
              if ds.isEmpty || decide (i64MaxNat < digitsToNat ds) then none
              else some ((if pos then (digitsToNat ds : Int) else -(digitsToNat ds : Int)), rest2)

/-- RESPReader::parse_resp_simple_string: read_until the CR (the returned
Bool records whether its usize subtraction wrapped), then advance past the
CRLF. -/
def parse_resp_simple_string (bs : ByteSeq) : Option (RESPValue × ByteSeq × Bool) :=
  match read_until (fun b => b == 13) bs with
  | none => none
  | some (pre, rest) =>
      (parse_crlf rest).map
        (fun rest2 => (.SimpleString pre, rest2, read_until_underflow (fun b => b == 13) bs))

/-- RESPReader::parse_resp_simple_error. -/
def parse_resp_simple_error (bs : ByteSeq) : Option (RESPValue × ByteSeq × Bool) :=
  match read_until (fun b => b == 13) bs with
  | none => none
  | some (pre, rest) =>
      (parse_crlf rest).map
        (fun rest2 => (.SimpleError pre, rest2, read_until_underflow (fun b => b == 13) bs))

/-- RESPReader::parse_resp_number. -/
def parse_resp_number (bs : ByteSeq) : Option (RESPValue × ByteSeq × Bool) :=
  match parse_number bs with
  | none => none
  | some (n, rest) =>
      (parse_crlf rest).map (fun rest2 => (.Integer n, rest2, false))

/-- RESPReader::parse_resp_bulk_string: length, CRLF, then either the null
variant or copy_to_bytes(length as usize) (panics when not fully buffered)
and the trailing CRLF. -/
def parse_resp_bulk_string (bs : ByteSeq) : Option (RESPValue × ByteSeq × Bool) :=
  match parse_number bs with
  | none => none
  | some (len, rest) =>
      match parse_crlf rest with
      | none => none
      | some rest2 =>
          if len = -1 then some (.NullBulkString, rest2, false)
          else
            let n := usizeOfInt len
            if rest2.length < n then none
            else
              (parse_crlf (rest2.drop n)).map
                (fun rest3 => (.BulkString (rest2.take n), rest3, false))

/-- The element loop of parse_resp_array (for _ in 0..length with push). -/
def parse_elements (rec : ByteSeq → Option (RESPValue × ByteSeq × Bool)) :
    Nat → ByteSeq → Option (List RESPValue × ByteSeq × Bool)
  | 0, bs => some ([], bs, false)
  | n + 1, bs =>
      match rec bs with
      | none => none
      | some (v, bs1, u1) =>
          (parse_elements rec n bs1).map (fun y => (v :: y.1, y.2.1, u1 || y.2.2))

/-- RESPReader::parse_resp_array: count, CRLF, then the null variant or
count recursive parses (a negative non -1 count iterates zero times, as
0..length does on a negative i64). -/
def parse_resp_array (rec : ByteSeq → Option (RESPValue × ByteSeq × Bool))
    (bs : ByteSeq) : Option (RESPValue × ByteSeq × Bool) :=
  match parse_number bs with
  | none => none
  | some (len, rest) =>
      match parse_crlf rest with
      | none => none
      | some rest2 =>
          if len = -1 then some (.NullArray, rest2, false)
          else
            (parse_elements rec len.toNat rest2).map
              (fun y => (.Array y.1, y.2.1, y.2.2))

/-- RESPReader::parse: dispatch on the tag byte taken off the buffer; the
default arm is unreachable! (we return none), indexing an empty buffer
would panic. -/
def parseStep (rec : ByteSeq → Option (RESPValue × ByteSeq × Bool)) :
    ByteSeq → Option (RESPValue × ByteSeq × Bool)
  | [] => none
  | t :: rest =>
      if t = 43 then parse_resp_simple_string rest
      else if t = 45 then parse_resp_simple_error rest
      else if t = 58 then parse_resp_number rest
      else if t = 36 then parse_resp_bulk_string rest
      else if t = 42 then parse_resp_array rec rest
      else none

/-- Fueled closure of RESPReader::parse, in step with checkVal. -/
def parseVal : Nat → ByteSeq → Option (RESPValue × ByteSeq × Bool)
  | 0 => fun _ => none
  | fuel + 1 => parseStep (parseVal fuel)

/-- RESPReader::read_value for a connection whose complete input is the
given byte list: the loop checks from the buffer start and parses exactly
when the check passes; with no further bytes arriving, both Ok(false) and
Err(..) end in an error (none).  The fuel length + 1 dominates any array
nesting the buffer can hold. -/
def read_value (bs : ByteSeq) : Option RESPValue :=
  if bs.isEmpty then none
  else
    match checkVal (bs.length + 1) bs with
    | .pass _ => (parseVal (bs.length + 1) bs).map (fun x => x.1)
    | _ => none

theorem read_until_append (p : Nat → Bool) (pre : ByteSeq) (c : Nat) (rest : ByteSeq)
    (hpre : ∀ b ∈ pre, p b = false) (hc : p c = true) :
    read_until p (pre ++ c :: rest) = some (pre, c :: rest) := by
  induction pre with
  | nil => simp [read_until, hc]
  | cons x xs ih =>
      have hx : p x = false := hpre x (by simp)
      rw [List.cons_append, read_until, hx]
      simp only [Bool.false_eq_true, if_false]
      rw [ih (fun b hb => hpre b (by simp [hb]))]
      rfl

theorem read_until_some (p : Nat → Bool) : ∀ bs pre rest,
    read_until p bs = some (pre, rest) →
    bs = pre ++ rest ∧ (∀ b ∈ pre, p b = false) ∧
      ∃ c rest2, rest = c :: rest2 ∧ p c = true := by
  intro bs
  induction bs with
  | nil => intro pre rest h; simp [read_until] at h
  | cons x xs ih =>
      intro pre rest h
      by_cases hx : p x
      · rw [read_until, if_pos hx] at h
        have h2 := Option.some.inj h
        have hpre : pre = [] := (congrArg Prod.fst h2).symm
        have hrest : rest = x :: xs := (congrArg Prod.snd h2).symm
        subst hpre; subst hrest
        exact ⟨rfl, by simp, x, xs, rfl, hx⟩
      · rw [read_until, if_neg hx] at h
        cases heq : read_until p xs with
        | none => rw [heq] at h; simp at h
        | some pr =>
            rw [heq, Option.map_some'] at h
            have h2 := Option.some.inj h
            have hpre : pre = x :: pr.1 := (congrArg Prod.fst h2).symm
            have hrest : rest = pr.2 := (congrArg Prod.snd h2).symm
            obtain ⟨hb, hall, c, rest3, hr, hc⟩ := ih pr.1 pr.2 (by rw [heq])
            subst hpre
            refine ⟨by simp [hb, hrest], ?_, c, rest3, by rw [hrest, hr], hc⟩
            intro b hb2
            rcases List.mem_cons.mp hb2 with h | h
            · subst h; simpa using hx
            · exact hall b h

theorem check_sign_digit (d : Nat) (hd : isDigitByte d = true) (tail : ByteSeq) :
    check_sign (d :: tail) = .ok true (d :: tail) := by
  have hle : 48 ≤ d ∧ d ≤ 57 := by simpa [isDigitByte] using hd
  have h1 : ¬ d = 43 := by omega
  have h2 : ¬ d = 45 := by omega
  simp [check_sign, h1, h2, hd]

theorem check_sign_natBytes (n : Nat) (tail : ByteSeq) :
    check_sign (natBytes n ++ tail) = .ok true (natBytes n ++ tail) := by
  cases h : natBytes n with
  | nil => exact absurd h (natBytes_ne_nil n)
  | cons d ds =>
      have hd : isDigitByte d = true := natBytes_digits n d (by rw [h]; simp)
      rw [List.cons_append, check_sign_digit d hd]

theorem read_until_digits (ds : ByteSeq) (hds : ∀ b ∈ ds, isDigitByte b = true)
    (c : Nat) (hc : isDigitByte c = false) (tail : ByteSeq) :
    read_until (fun b => !isDigitByte b) (ds ++ c :: tail) = some (ds, c :: tail) :=
  read_until_append _ ds c tail (fun b hb => by simp [hds b hb]) (by simp [hc])

theorem scan_natBytes (n : Nat) (hn : n ≤ i64MaxNat) (c : Nat)
    (hc : isDigitByte c = false) (tail : ByteSeq) :
    scan_i64_digits (natBytes n ++ c :: tail) = .ok (natBytes n) (c :: tail) := by
  rw [scan_i64_digits, read_until_digits (natBytes n) (natBytes_digits n) c hc]
  have h1 : (natBytes n).isEmpty = false := by
    cases h : natBytes n with
    | nil => exact absurd h (natBytes_ne_nil n)
    | cons d ds => rfl
  have h2 : ¬ i64MaxNat < digitsToNat (natBytes n) := by
    rw [digitsToNat_natBytes]; omega
  simp [h1, h2]

theorem check_crlf_pass (rest : ByteSeq) : check_crlf (13 :: 10 :: rest) = .pass rest := by
  simp [check_crlf]

theorem parse_number_natBytes (n : Nat) (hn : n ≤ i64MaxNat) (c : Nat)
    (hc : isDigitByte c = false) (tail : ByteSeq) :
    parse_number (natBytes n ++ c :: tail) = some ((n : Int), c :: tail) := by
  cases h : natBytes n with
  | nil => exact absurd h (natBytes_ne_nil n)
  | cons d ds =>
      have hd : isDigitByte d = true := natBytes_digits n d (by rw [h]; simp)
      have hle : 48 ≤ d ∧ d ≤ 57 := by simpa [isDigitByte] using hd
      have h1 : ¬ d = 43 := by omega
      have h2 : ¬ d = 45 := by omega
      rw [List.cons_append, parse_number]
      simp only [h1, if_false, h2, hd, if_true, ← List.cons_append, ← h]
      rw [read_until_digits (natBytes n) (natBytes_digits n) c hc]
      have h3 : (natBytes n).isEmpty = false := by rw [h]; rfl
      have h4 : ¬ i64MaxNat < digitsToNat (natBytes n) := by
        rw [digitsToNat_natBytes]; omega
      simp [h3, h4, digitsToNat_natBytes]
      all_goals omega

theorem parse_number_neg_natBytes (n : Nat) (hn : n ≤ i64MaxNat) (c : Nat)
    (hc : isDigitByte c = false) (tail : ByteSeq) :
    parse_number (45 :: (natBytes n ++ c :: tail)) = some (-(n : Int), c :: tail) := by
  have h3 : (natBytes n).isEmpty = false := by
    cases h : natBytes n with
    | nil => exact absurd h (natBytes_ne_nil n)
    | cons d ds => rfl
  have h4 : ¬ i64MaxNat < digitsToNat (natBytes n) := by
    rw [digitsToNat_natBytes]; omega
  simp [parse_number, read_until_digits (natBytes n) (natBytes_digits n) c hc,
    h3, h4, digitsToNat_natBytes]
  all_goals omega

mutual

/-- Side conditions under which a RESPValue survives the reader: simple
string and error payloads free of CR (the reader treats the first CR as
the terminator), integers strictly between the i64 bounds (the reader
parses the digit run alone as i64, so i64::MIN itself is rejected), and
payload/element counts within i64::MAX (automatic for any value a real
process can hold). -/
def safeValue : RESPValue → Bool
  | .SimpleString s => decide (¬ 13 ∈ s)
  | .SimpleError s => decide (¬ 13 ∈ s)
  | .Integer n => decide (-9223372036854775808 < n ∧ n < 9223372036854775808)
  | .BulkString s => decide (s.length ≤ i64MaxNat)
  | .NullBulkString => true
  | .Array vs => decide (vs.length ≤ i64MaxNat) && safeListValues vs
  | .NullArray => true

/-- safeValue on every element of a list. -/
def safeListValues : List RESPValue → Bool
  | [] => true
  | v :: vs => safeValue v && safeListValues vs

end

mutual

/-- Array-nesting depth of a value, the amount of fuel the fueled reader
functions need for it. -/
def depthValue : RESPValue → Nat
  | .SimpleString _ => 1
  | .SimpleError _ => 1
  | .Integer _ => 1
  | .BulkString _ => 1
  | .NullBulkString => 1
  | .Array vs => depthListValues vs + 1
  | .NullArray => 1

/-- Maximum depthValue over a list. -/
def depthListValues : List RESPValue → Nat
  | [] => 0
  | v :: vs => max (depthValue v) (depthListValues vs)

end

theorem one_le_depthValue (v : RESPValue) : 1 ≤ depthValue v := by
  cases v <;> simp [depthValue]

theorem checkStep_simple_string (rec : ByteSeq → CheckResult) (bs : ByteSeq) :
    checkStep rec (43 :: bs) = check_resp_simple_string bs := rfl

theorem checkStep_simple_error (rec : ByteSeq → CheckResult) (bs : ByteSeq) :
    checkStep rec (45 :: bs) = check_resp_simple_error bs := rfl

theorem checkStep_number (rec : ByteSeq → CheckResult) (bs : ByteSeq) :
    checkStep rec (58 :: bs) = check_resp_number bs := rfl

theorem checkStep_bulk (rec : ByteSeq → CheckResult) (bs : ByteSeq) :
    checkStep rec (36 :: bs) = check_resp_bulk_string bs := rfl

theorem checkStep_array (rec : ByteSeq → CheckResult) (bs : ByteSeq) :
    checkStep rec (42 :: bs) = check_resp_array rec bs := rfl

theorem check_sign_minus (bs : ByteSeq) : check_sign (45 :: bs) = .ok false bs := rfl

mutual

theorem check_encode (v : RESPValue) (hs : safeValue v = true) :
    ∀ fuel rest, depthValue v ≤ fuel →
      checkVal fuel (encodeValue v ++ rest) = .pass rest := by
  intro fuel rest hdepth
  cases fuel with
  | zero => exact absurd hdepth (by have := one_le_depthValue v; omega)
  | succ f =>
      rw [checkVal]
      cases v with
      | SimpleString s =>
          have hcr : ¬ 13 ∈ s := of_decide_eq_true hs
          have hpre : ∀ b ∈ s, (b == 13) = false := fun b hb =>
            beq_eq_false_iff_ne.mpr (fun h => hcr (h ▸ hb))
          simp only [encodeValue, List.cons_append, List.append_assoc, List.nil_append]
          rw [checkStep_simple_string]
          simp [check_resp_simple_string,
            read_until_append (fun b => b == 13) s 13 (10 :: rest) hpre (by decide),
            check_crlf_pass]
      | SimpleError s =>
          have hcr : ¬ 13 ∈ s := of_decide_eq_true hs
          have hpre : ∀ b ∈ s, (b == 13) = false := fun b hb =>
            beq_eq_false_iff_ne.mpr (fun h => hcr (h ▸ hb))
          simp only [encodeValue, List.cons_append, List.append_assoc, List.nil_append]
          rw [checkStep_simple_error]
          simp [check_resp_simple_error,
            read_until_append (fun b => b == 13) s 13 (10 :: rest) hpre (by decide),
            check_crlf_pass]
      | Integer n =>
          have hb := of_decide_eq_true hs
          simp only [encodeValue, List.cons_append, List.append_assoc, List.nil_append]
          rw [checkStep_number]
          by_cases hneg : n < 0
          · simp only [intBytes, if_pos hneg, List.cons_append]
            rw [check_resp_number, check_sign_minus]
            simp [scan_natBytes n.natAbs (by simp [i64MaxNat]; omega) 13 (by decide) _,
              check_crlf_pass]
          · simp only [intBytes, if_neg hneg]
            rw [check_resp_number, check_sign_natBytes]
            simp [scan_natBytes n.toNat (by simp [i64MaxNat]; omega) 13 (by decide) _,
              check_crlf_pass]
      | BulkString s =>
          have hlen : s.length ≤ i64MaxNat := of_decide_eq_true hs
          simp only [encodeValue, List.cons_append, List.append_assoc, List.nil_append]
          rw [checkStep_bulk, check_resp_bulk_string, check_sign_natBytes]
          have h1 : ¬ ((s.length : Int) < -1) := by omega
          have h2 : ¬ ((s.length : Int) = -1) := by omega
          simp [scan_natBytes s.length hlen 13 (by decide) _, check_crlf_pass,
            h1, h2, Int.toNat_natCast]
          rw [digitsToNat_natBytes, if_neg h1,
            if_neg (by omega : ¬ List.length s + (List.length rest + 1 + 1) < List.length s),
            List.drop_left, check_crlf_pass]
      | NullBulkString =>
          simp only [encodeValue, List.cons_append, List.append_assoc, List.nil_append]
          rw [checkStep_bulk, check_resp_bulk_string, check_sign_minus]
          simp [scan_i64_digits, read_until, isDigitByte, digitsToNat, i64MaxNat,
            check_crlf]
      | Array vs =>
          rw [safeValue, Bool.and_eq_true] at hs
          obtain ⟨hlen, hsafe⟩ := hs
          have hlen2 : vs.length ≤ i64MaxNat := of_decide_eq_true hlen
          simp only [encodeValue, List.cons_append, List.append_assoc, List.nil_append]
          rw [checkStep_array, check_resp_array, check_sign_natBytes]
          have h1 : ¬ ((vs.length : Int) < -1) := by omega
          have h2 : ¬ ((vs.length : Int) = -1) := by omega
          simp [scan_natBytes vs.length hlen2 13 (by decide) _, check_crlf_pass,
            digitsToNat_natBytes, h1, h2, Int.toNat_natCast]
          exact check_encode_list vs hsafe f rest (by
            have hd : depthValue (.Array vs) = depthListValues vs + 1 := rfl
            omega)
      | NullArray =>
          simp only [encodeValue, List.cons_append, List.append_assoc, List.nil_append]
          rw [checkStep_array, check_resp_array, check_sign_minus]
          simp [scan_i64_digits, read_until, isDigitByte, digitsToNat, i64MaxNat,
            check_crlf, check_elements]

theorem check_encode_list (vs : List RESPValue) (hs : safeListValues vs = true) :
    ∀ fuel rest, depthListValues vs ≤ fuel →
      check_elements (checkVal fuel) vs.length (encodeList vs ++ rest) = .pass rest := by
  intro fuel rest hdepth
  cases vs with
  | nil => simp [check_elements, encodeList]
  | cons v vs2 =>
      rw [safeListValues, Bool.and_eq_true] at hs
      obtain ⟨h1, h2⟩ := hs
      have hd : depthListValues (v :: vs2) = max (depthValue v) (depthListValues vs2) := rfl
      rw [List.length_cons, encodeList, List.append_assoc, check_elements]
      rw [check_encode v h1 fuel (encodeList vs2 ++ rest) (by omega)]
      exact check_encode_list vs2 h2 fuel rest (by omega)

end

theorem parseStep_simple_string (rec : ByteSeq → Option (RESPValue × ByteSeq × Bool))
    (bs : ByteSeq) : parseStep rec (43 :: bs) = parse_resp_simple_string bs := rfl

theorem parseStep_simple_error (rec : ByteSeq → Option (RESPValue × ByteSeq × Bool))
    (bs : ByteSeq) : parseStep rec (45 :: bs) = parse_resp_simple_error bs := rfl

theorem parseStep_number (rec : ByteSeq → Option (RESPValue × ByteSeq × Bool))
    (bs : ByteSeq) : parseStep rec (58 :: bs) = parse_resp_number bs := rfl

theorem parseStep_bulk (rec : ByteSeq → Option (RESPValue × ByteSeq × Bool))
    (bs : ByteSeq) : parseStep rec (36 :: bs) = parse_resp_bulk_string bs := rfl

theorem parseStep_array (rec : ByteSeq → Option (RESPValue × ByteSeq × Bool))
    (bs : ByteSeq) : parseStep rec (42 :: bs) = parse_resp_array rec bs := rfl

theorem usizeOfInt_natCast (n : Nat) (h : n ≤ i64MaxNat) : usizeOfInt (n : Int) = n := by
  rw [usizeOfInt]
  have h1 : (n : Int) % (2 ^ 64 : Int) = (n : Int) := by
    rw [i64MaxNat] at h; omega
  rw [h1, Int.toNat_natCast]

mutual

theorem parse_encode (v : RESPValue) (hs : safeValue v = true) :
    ∀ fuel rest, depthValue v ≤ fuel →
      ∃ u, parseVal fuel (encodeValue v ++ rest) = some (v, rest, u) := by
  intro fuel rest hdepth
  cases fuel with
  | zero => exact absurd hdepth (by have := one_le_depthValue v; omega)
  | succ f =>
      rw [parseVal]
      cases v with
      | SimpleString s =>
          have hcr : ¬ 13 ∈ s := of_decide_eq_true hs
          have hpre : ∀ b ∈ s, (b == 13) = false := fun b hb =>
            beq_eq_false_iff_ne.mpr (fun h => hcr (h ▸ hb))
          refine ⟨read_until_underflow (fun b => b == 13) (s ++ 13 :: 10 :: rest), ?_⟩
          simp only [encodeValue, List.cons_append, List.append_assoc, List.nil_append]
          rw [parseStep_simple_string]
          simp [parse_resp_simple_string,
            read_until_append (fun b => b == 13) s 13 (10 :: rest) hpre (by decide),
            parse_crlf]
      | SimpleError s =>
          have hcr : ¬ 13 ∈ s := of_decide_eq_true hs
          have hpre : ∀ b ∈ s, (b == 13) = false := fun b hb =>
            beq_eq_false_iff_ne.mpr (fun h => hcr (h ▸ hb))
          refine ⟨read_until_underflow (fun b => b == 13) (s ++ 13 :: 10 :: rest), ?_⟩
          simp only [encodeValue, List.cons_append, List.append_assoc, List.nil_append]
          rw [parseStep_simple_error]
          simp [parse_resp_simple_error,
            read_until_append (fun b => b == 13) s 13 (10 :: rest) hpre (by decide),
            parse_crlf]
      | Integer n =>
          have hb := of_decide_eq_true hs
          refine ⟨false, ?_⟩
          simp only [encodeValue, List.cons_append, List.append_assoc, List.nil_append]
          rw [parseStep_number]
          by_cases hneg : n < 0
          · simp only [intBytes, if_pos hneg, List.cons_append]
            have hn : -(n.natAbs : Int) = n := by omega
            rw [parse_resp_number,
              parse_number_neg_natBytes n.natAbs (by simp [i64MaxNat]; omega) 13 (by decide) _,
              hn]
            simp [parse_crlf]
          · simp only [intBytes, if_neg hneg]
            rw [parse_resp_number,
              parse_number_natBytes n.toNat (by simp [i64MaxNat]; omega) 13 (by decide) _]
            have hn : ((n.toNat : Nat) : Int) = n := by omega
            simp [parse_crlf, hn]
      | BulkString s =>
          have hlen : s.length ≤ i64MaxNat := of_decide_eq_true hs
          refine ⟨false, ?_⟩
          simp only [encodeValue, List.cons_append, List.append_assoc, List.nil_append]
          rw [parseStep_bulk, parse_resp_bulk_string,
            parse_number_natBytes s.length hlen 13 (by decide) _]
          have h2 : ¬ ((s.length : Int) = -1) := by omega
          simp only [parse_crlf, h2, if_false, usizeOfInt_natCast s.length hlen]
          have h3 : ¬ ((s ++ 13 :: 10 :: rest).length < s.length) := by simp
          simp only [h3, if_false, List.take_left, List.drop_left, if_neg h2]
          simp [parse_crlf]
      | NullBulkString =>
          refine ⟨false, ?_⟩
          simp only [encodeValue, List.cons_append, List.append_assoc, List.nil_append]
          rw [parseStep_bulk, parse_resp_bulk_string]
          simp [parse_number, read_until, isDigitByte, digitsToNat, i64MaxNat, parse_crlf]
      | Array vs =>
          rw [safeValue, Bool.and_eq_true] at hs
          obtain ⟨hlen, hsafe⟩ := hs
          have hlen2 : vs.length ≤ i64MaxNat := of_decide_eq_true hlen
          obtain ⟨u, hu⟩ := parse_encode_list vs hsafe f rest (by
            have hd : depthValue (.Array vs) = depthListValues vs + 1 := rfl
            omega)
          refine ⟨u, ?_⟩
          simp only [encodeValue, List.cons_append, List.append_assoc, List.nil_append]
          rw [parseStep_array, parse_resp_array,
            parse_number_natBytes vs.length hlen2 13 (by decide) _]
          have h2 : ¬ ((vs.length : Int) = -1) := by omega
          simp [parse_crlf, h2, Int.toNat_natCast, hu]
      | NullArray =>
          refine ⟨false, ?_⟩
          simp only [encodeValue, List.cons_append, List.append_assoc, List.nil_append]
          rw [parseStep_array, parse_resp_array]
          simp [parse_number, read_until, isDigitByte, digitsToNat, i64MaxNat, parse_crlf]

theorem parse_encode_list (vs : List RESPValue) (hs : safeListValues vs = true) :
    ∀ fuel rest, depthListValues vs ≤ fuel →
      ∃ u, parse_elements (parseVal fuel) vs.length (encodeList vs ++ rest) =
        some (vs, rest, u) := by
  intro fuel rest hdepth
  cases vs with
  | nil => exact ⟨false, by simp [parse_elements, encodeList]⟩
  | cons v vs2 =>
      rw [safeListValues, Bool.and_eq_true] at hs
      obtain ⟨h1, h2⟩ := hs
      have hd : depthListValues (v :: vs2) = max (depthValue v) (depthListValues vs2) := rfl
      obtain ⟨u1, hu1⟩ := parse_encode v h1 fuel (encodeList vs2 ++ rest) (by omega)
      obtain ⟨u2, hu2⟩ := parse_encode_list vs2 h2 fuel rest (by omega)
      refine ⟨u1 || u2, ?_⟩
      rw [List.length_cons, encodeList, List.append_assoc, parse_elements]
      simp only [hu1, hu2, Option.map_some']

end

end RedisProof

namespace RedisProof

theorem check_crlf_pass_inv : ∀ bs rest, check_crlf bs = .pass rest →
    bs = 13 :: 10 :: rest := by
  intro bs rest h
  match bs with
  | [] => simp [check_crlf] at h
  | [cr] =>
      rw [check_crlf] at h
      split_ifs at h
  | cr :: lf :: rest2 =>
      rw [check_crlf] at h
      split_ifs at h with h1 h2
      injection h with h3
      rw [h1, h2, h3]

theorem check_sign_ok_inv : ∀ bs pos bs1, check_sign bs = .ok pos bs1 →
    (bs = 43 :: bs1 ∧ pos = true) ∨ (bs = 45 :: bs1 ∧ pos = false) ∨
    (bs = bs1 ∧ pos = true ∧ ∃ d r, bs = d :: r ∧ ¬ d = 43 ∧ ¬ d = 45 ∧
      isDigitByte d = true) := by
  intro bs pos bs1 h
  match bs with
  | [] => simp [check_sign] at h
  | b :: r =>
      rw [check_sign] at h
      split_ifs at h with h1 h2 h3
      · injection h with hp hr
        exact Or.inl ⟨by rw [h1, hr], hp.symm⟩
      · injection h with hp hr
        exact Or.inr (Or.inl ⟨by rw [h2, hr], hp.symm⟩)
      · injection h with hp hr
        exact Or.inr (Or.inr ⟨hr, hp.symm, b, r, rfl, h1, h2, h3⟩)

theorem scan_ok_inv : ∀ bs ds rest, scan_i64_digits bs = .ok ds rest →
    read_until (fun b => !isDigitByte b) bs = some (ds, rest) ∧
      ds ≠ [] ∧ digitsToNat ds ≤ i64MaxNat := by
  intro bs ds rest h
  rw [scan_i64_digits] at h
  cases heq : read_until (fun b => !isDigitByte b) bs with
  | none => rw [heq] at h; simp at h
  | some pr =>
      obtain ⟨ds0, rest0⟩ := pr
      rw [heq] at h
      simp only [] at h
      split_ifs at h with hguard
      injection h with hds hrest
      subst hds; subst hrest
      rw [Bool.or_eq_true] at hguard
      push_neg at hguard
      refine ⟨rfl, ?_, ?_⟩
      · intro hnil
        exact hguard.1 (by rw [hnil]; rfl)
      · have := hguard.2
        simpa using this

theorem parse_number_of_checks (bs bs1 : ByteSeq) (pos : Bool) (ds rest : ByteSeq)
    (hsign : check_sign bs = .ok pos bs1) (hscan : scan_i64_digits bs1 = .ok ds rest) :
    parse_number bs =
      some ((if pos then (digitsToNat ds : Int) else -(digitsToNat ds : Int)), rest) := by
  obtain ⟨hr, hne, hle⟩ := scan_ok_inv bs1 ds rest hscan
  have hne2 : ds.isEmpty = false := by
    cases ds with
    | nil => exact absurd rfl hne
    | cons a l => rfl
  have hle2 : ¬ (i64MaxNat < digitsToNat ds) := by omega
  rcases check_sign_ok_inv bs pos bs1 hsign with ⟨hbs, hpos⟩ | ⟨hbs, hpos⟩ |
    ⟨hbs, hpos, d, r, hdr, h43, h45, hdig⟩
  · subst hpos; rw [hbs]
    simp [parse_number, hr, hne2, hle2]
  · subst hpos; rw [hbs]
    simp [parse_number, hr, hne2, hle2]
  · subst hpos
    have hb1 : bs1 = d :: r := hbs.symm.trans hdr
    have hr2 : read_until (fun c => !isDigitByte c) (d :: r) = some (ds, rest) :=
      hb1 ▸ hr
    rw [hdr]
    simp [parse_number, h43, h45, hdig, hr2, hne2, hle2]

end RedisProof

namespace RedisProof

theorem usizeOfInt_toNat (i : Int) (h0 : 0 ≤ i) (h1 : i ≤ (i64MaxNat : Int)) :
    usizeOfInt i = i.toNat := by
  rw [usizeOfInt]
  have h2 : i % (2 ^ 64 : Int) = i := by
    rw [i64MaxNat] at h1; omega
  rw [h2]

theorem check_pass_parse_total : ∀ fuel bs rest, checkVal fuel bs = .pass rest →
    ∃ v u, parseVal fuel bs = some (v, rest, u) := by
  intro fuel
  induction fuel with
  | zero =>
      intro bs rest h
      rw [checkVal] at h
      simp at h
  | succ f ih =>
      have helems : ∀ n bs rest, check_elements (checkVal f) n bs = .pass rest →
          ∃ vs u, parse_elements (parseVal f) n bs = some (vs, rest, u) := by
        intro n
        induction n with
        | zero =>
            intro bs rest h
            rw [check_elements] at h
            injection h with h1
            exact ⟨[], false, by rw [parse_elements, h1]⟩
        | succ m ihm =>
            intro bs rest h
            rw [check_elements] at h
            cases hcv : checkVal f bs with
            | fail => rw [hcv] at h; simp at h
            | more => rw [hcv] at h; simp at h
            | pass r1 =>
                rw [hcv] at h
                simp only [] at h
                obtain ⟨v, u1, hv⟩ := ih bs r1 hcv
                obtain ⟨vs, u2, hvs⟩ := ihm r1 rest h
                refine ⟨v :: vs, u1 || u2, ?_⟩
                rw [parse_elements, hv]
                simp only [hvs, Option.map_some']
      intro bs rest h
      rw [checkVal] at h
      rw [parseVal]
      match bs with
      | [] =>
          rw [checkStep] at h
          simp at h
      | t :: bs2 =>
          rw [checkStep] at h
          split_ifs at h with h43 h45 h58 h36 h42
          · -- simple string
            subst h43
            rw [check_resp_simple_string] at h
            cases hru : read_until (fun b => b == 13) bs2 with
            | none => rw [hru] at h; simp at h
            | some pr =>
                obtain ⟨pre, r1⟩ := pr
                rw [hru] at h
                simp only [] at h
                have hr1 := check_crlf_pass_inv r1 rest h
                subst hr1
                refine ⟨.SimpleString pre, read_until_underflow (fun b => b == 13) bs2, ?_⟩
                rw [parseStep_simple_string, parse_resp_simple_string, hru]
                simp [parse_crlf]
          · -- simple error
            subst h45
            rw [check_resp_simple_error] at h
            cases hru : read_until (fun b => b == 13) bs2 with
            | none => rw [hru] at h; simp at h
            | some pr =>
                obtain ⟨pre, r1⟩ := pr
                rw [hru] at h
                simp only [] at h
                have hr1 := check_crlf_pass_inv r1 rest h
                subst hr1
                refine ⟨.SimpleError pre, read_until_underflow (fun b => b == 13) bs2, ?_⟩
                rw [parseStep_simple_error, parse_resp_simple_error, hru]
                simp [parse_crlf]
          · -- integer
            subst h58
            rw [check_resp_number] at h
            cases hsign : check_sign bs2 with
            | fail => rw [hsign] at h; simp at h
            | more => rw [hsign] at h; simp at h
            | ok pos bs1 =>
                rw [hsign] at h
                simp only [] at h
                cases hscan : scan_i64_digits bs1 with
                | fail => rw [hscan] at h; simp at h
                | more => rw [hscan] at h; simp at h
                | ok ds r1 =>
                    rw [hscan] at h
                    simp only [] at h
                    have hr1 := check_crlf_pass_inv r1 rest h
                    subst hr1
                    refine ⟨.Integer (if pos then (digitsToNat ds : Int)
                      else -(digitsToNat ds : Int)), false, ?_⟩
                    rw [parseStep_number, parse_resp_number,
                      parse_number_of_checks bs2 bs1 pos ds _ hsign hscan]
                    simp [parse_crlf]
          · -- bulk string
            subst h36
            rw [check_resp_bulk_string] at h
            cases hsign : check_sign bs2 with
            | fail => rw [hsign] at h; simp at h
            | more => rw [hsign] at h; simp at h
            | ok pos bs1 =>
                rw [hsign] at h
                simp only [] at h
                cases hscan : scan_i64_digits bs1 with
                | fail => rw [hscan] at h; simp at h
                | more => rw [hscan] at h; simp at h
                | ok ds r1 =>
                    rw [hscan] at h
                    simp only [] at h
                    cases hcrlf : check_crlf r1 with
                    | fail => rw [hcrlf] at h; simp at h
                    | more => rw [hcrlf] at h; simp at h
                    | pass bs3 =>
                        rw [hcrlf] at h
                        simp only [] at h
                        have hr1 := check_crlf_pass_inv r1 bs3 hcrlf
                        have hsmax := (scan_ok_inv bs1 ds r1 hscan).2.2
                        set L : Int := if pos = true then (digitsToNat ds : Int)
                          else -(digitsToNat ds : Int) with hL
                        have hLmax : L ≤ (i64MaxNat : Int) := by
                          rw [hL]; split_ifs <;> omega
                        split_ifs at h with hlt hm1 hbuf
                        · -- len = -1: null bulk string
                          injection h with h1
                          subst h1
                          refine ⟨.NullBulkString, false, ?_⟩
                          rw [parseStep_bulk, parse_resp_bulk_string,
                            parse_number_of_checks bs2 bs1 pos ds _ hsign hscan, hr1]
                          rw [← hL]
                          simp [parse_crlf, hm1]
                        · -- len ≥ 0: payload present
                          have hlen0 : (0 : Int) ≤ L := by omega
                          have hr2 := check_crlf_pass_inv _ rest h
                          refine ⟨.BulkString (bs3.take L.toNat), false, ?_⟩
                          rw [parseStep_bulk, parse_resp_bulk_string,
                            parse_number_of_checks bs2 bs1 pos ds _ hsign hscan, hr1]
                          rw [← hL]
                          simp only [parse_crlf, if_neg hm1,
                            usizeOfInt_toNat L hlen0 hLmax, hbuf, if_false]
                          rw [hr2]
                          simp [parse_crlf]
          · -- array
            subst h42
            rw [check_resp_array] at h
            cases hsign : check_sign bs2 with
            | fail => rw [hsign] at h; simp at h
            | more => rw [hsign] at h; simp at h
            | ok pos bs1 =>
                rw [hsign] at h
                simp only [] at h
                cases hscan : scan_i64_digits bs1 with
                | fail => rw [hscan] at h; simp at h
                | more => rw [hscan] at h; simp at h
                | ok ds r1 =>
                    rw [hscan] at h
                    simp only [] at h
                    cases hcrlf : check_crlf r1 with
                    | fail => rw [hcrlf] at h; simp at h
                    | more => rw [hcrlf] at h; simp at h
                    | pass bs3 =>
                        rw [hcrlf] at h
                        simp only [] at h
                        have hr1 := check_crlf_pass_inv r1 bs3 hcrlf
                        set L : Int := if pos = true then (digitsToNat ds : Int)
                          else -(digitsToNat ds : Int) with hL
                        split_ifs at h with hlt hm1
                        · -- len = -1: null array
                          injection h with h1
                          subst h1
                          refine ⟨.NullArray, false, ?_⟩
                          rw [parseStep_array, parse_resp_array,
                            parse_number_of_checks bs2 bs1 pos ds _ hsign hscan, hr1]
                          rw [← hL]
                          simp [parse_crlf, hm1]
                        · -- len ≥ 0: element loop
                          obtain ⟨vs, u, hvs⟩ := helems _ bs3 rest h
                          refine ⟨.Array vs, u, ?_⟩
                          rw [parseStep_array, parse_resp_array,
                            parse_number_of_checks bs2 bs1 pos ds _ hsign hscan, hr1]
                          rw [← hL]
                          simp [parse_crlf, hm1, hvs]

end RedisProof

namespace RedisProof

mutual

theorem depthValue_le_encodeLength (v : RESPValue) :
    depthValue v ≤ (encodeValue v).length := by
  cases v with
  | Array vs =>
      have h1 := depthListValues_le_encodeLength vs
      have h2 : natBytes vs.length ≠ [] := natBytes_ne_nil _
      have h3 : 1 ≤ (natBytes vs.length).length := by
        cases hx : natBytes vs.length with
        | nil => exact absurd hx h2
        | cons a l => simp
      simp only [depthValue, encodeValue]
      simp [List.length_append]
      omega
  | SimpleString s => simp [depthValue, encodeValue]
  | SimpleError s => simp [depthValue, encodeValue]
  | Integer n => simp [depthValue, encodeValue]
  | BulkString s => simp [depthValue, encodeValue]
  | NullBulkString => simp [depthValue, encodeValue]
  | NullArray => simp [depthValue, encodeValue]

theorem depthListValues_le_encodeLength (vs : List RESPValue) :
    depthListValues vs ≤ (encodeList vs).length := by
  cases vs with
  | nil => simp [depthListValues, encodeList]
  | cons v vs2 =>
      have h1 := depthValue_le_encodeLength v
      have h2 := depthListValues_le_encodeLength vs2
      simp only [depthListValues, encodeList, List.length_append]
      omega

end

theorem encodeValue_ne_nil (v : RESPValue) : encodeValue v ≠ [] := by
  cases v <;> simp [encodeValue]

/-- Claim C1, counterexample: the round-trip property fails as universally
stated.  For x = SimpleString containing the CR byte, the reader rejects
the encoding (the parse stops at the embedded CR and then fails to see
LF), and for x = Integer i64::MIN the check phase rejects the digit run
9223372036854775808 which exceeds i64::MAX; in both cases
parse(encode(x)) is an error, not x. -/
theorem c1_roundtrip_counterexample :
    read_value (encodeValue (.SimpleString [13])) = none ∧
    (none : Option RESPValue) ≠ some (.SimpleString [13]) ∧
    read_value (encodeValue (.Integer (-9223372036854775808))) = none ∧
    (none : Option RESPValue) ≠ some (.Integer (-9223372036854775808)) :=
  ⟨rfl, by simp, rfl, by simp⟩

/-- Claim C1 (amended): for every RESPValue whose SimpleString and
SimpleError payloads contain no CR byte (LF alone is fine), whose
integers lie strictly between the i64 bounds, and whose payload and
element counts fit in i64 (true of any value a running process can
represent), encoding then reading back yields exactly the original
value.  This covers all seven variants, nested arrays, and payloads
containing LF or CR inside length-prefixed bulk strings. -/
theorem c1_roundtrip (v : RESPValue) (hs : safeValue v = true) :
    read_value (encodeValue v) = some v := by
  have hdl := depthValue_le_encodeLength v
  have hc := check_encode v hs ((encodeValue v).length + 1) [] (by omega)
  obtain ⟨u, hp⟩ := parse_encode v hs ((encodeValue v).length + 1) [] (by omega)
  rw [List.append_nil] at hc hp
  have hne : (encodeValue v).isEmpty = false := by
    cases h : encodeValue v with
    | nil => exact absurd h (encodeValue_ne_nil v)
    | cons a l => rfl
  rw [read_value]
  simp only [hne, Bool.false_eq_true, if_false, hc, hp, Option.map_some']

/-- Witness for c1_roundtrip: a nested value exercising every variant,
including a bulk string whose payload holds CR and LF and a simple string
holding LF. -/
theorem c1_roundtrip_witness :
    safeValue (.Array [.BulkString (ascii "SET"), .BulkString [13, 10, 65],
      .SimpleString [10, 79, 75], .SimpleError (ascii "ERR"), .Integer (-42),
      .NullBulkString, .NullArray, .Array [.Integer 0]]) = true ∧
    read_value (encodeValue (.Array [.BulkString (ascii "SET"), .BulkString [13, 10, 65],
      .SimpleString [10, 79, 75], .SimpleError (ascii "ERR"), .Integer (-42),
      .NullBulkString, .NullArray, .Array [.Integer 0]])) =
      some (.Array [.BulkString (ascii "SET"), .BulkString [13, 10, 65],
      .SimpleString [10, 79, 75], .SimpleError (ascii "ERR"), .Integer (-42),
      .NullBulkString, .NullArray, .Array [.Integer 0]]) :=
  ⟨rfl, c1_roundtrip _ rfl⟩

/-- Claim C10, counterexample: on the well-framed input '+\r\n' the check
phase succeeds, yet the parse phase performs the usize underflow in
read_until (the subtraction length -= 1 with length = 0, recorded by the
final true flag), contradicting the claim that the parse phase performs
no arithmetic underflow. -/
theorem c10_underflow_counterexample :
    checkVal 4 [43, 13, 10] = .pass [] ∧
    parseVal 4 [43, 13, 10] = some (.SimpleString [], [], true) ∧
    read_until_underflow (fun b => b == 13) [13, 10] = true :=
  ⟨rfl, rfl, rfl⟩

/-- Claim C10 (amended): for every input byte sequence on which the check
phase succeeds, the parse phase is total and returns a RESPValue consuming
exactly the checked frame; the one arithmetic wrinkle is the usize
underflow in read_until when a simple string or error payload is empty,
which wraps back harmlessly (release semantics), '+\r\n' parsing to a
SimpleString of zero bytes as recorded in the counterexample theorem. -/
theorem c10_check_total (fuel : Nat) (bs rest : ByteSeq)
    (h : checkVal fuel bs = .pass rest) :
    ∃ v u, parseVal fuel bs = some (v, rest, u) :=
  check_pass_parse_total fuel bs rest h

/-- Witness for c10_check_total at the concrete frame ':7\r\nX'. -/
theorem c10_check_total_witness :
    checkVal 5 [58, 55, 13, 10, 88] = .pass [88] ∧
    ∃ v u, parseVal 5 [58, 55, 13, 10, 88] = some (v, [88], u) :=
  ⟨rfl, c10_check_total 5 [58, 55, 13, 10, 88] [88] rfl⟩

end RedisProof

namespace RedisProof

namespace resp

/-- Embeds InfoSection from src/redis/resp/command.rs. -/
inductive InfoSection where
  | Replication
  | Default

/-- Embeds ReplConfSection from src/redis/resp/command.rs (Port, Capa,
GetAck); the u16 port is a Nat. -/
inductive ReplConfSection where
  | Port (listening_port : Nat)
  | Capa (capabilities : List ByteSeq)
  | GetAck

/-- Embeds RedisServerCommand from src/redis/resp/command.rs. -/
inductive RedisServerCommand where
  | Ping
  | Echo (echo : ByteSeq)
  | Info (sect : InfoSection)
  | ReplConf (sect : ReplConfSection)
  | PSync (replication_id : ByteSeq) (replication_offset : Int)

/-- Embeds RedisStoreCommand from src/redis/resp/command.rs.  The px
expiry is carried as the number of milliseconds separating the stored
SystemTime from the encoding instant - exactly the Duration that
px.elapsed() / err.duration() produces in both encoders, which always
read the same pair of SystemTime values. -/
inductive RedisStoreCommand where
  | Get (key : ByteSeq)
  | Set (key value : ByteSeq) (px : Option Nat)

/-- Embeds RedisCommand from src/redis/resp/command.rs. -/
inductive RedisCommand where
  | Server (command : RedisServerCommand)
  | Store (command : RedisStoreCommand)

/-- Embeds impl From of RedisStoreCommand for RESPValue
(src/redis/resp/command.rs lines 133-163), the conversion the dispatcher
uses for replication fan-out.  Note the source pushes the literal bytes
SET - not PX - before the milliseconds when an expiry is present; this
embedding preserves that byte-for-byte. -/
def storeCommandToRESPValue : RedisStoreCommand → RESPValue
  | .Get key => .Array [.BulkString (ascii "GET"), .BulkString key]
  | .Set key value px =>
      .Array ([.BulkString (ascii "SET"), .BulkString key, .BulkString value] ++
        (match px with
         | some millis => [.BulkString (ascii "SET"), .BulkString (natBytes millis)]
         | none => []))

/-- Embeds impl From of RedisServerCommand for RESPValue
(src/redis/resp/command.rs lines 70-131). -/
def serverCommandToRESPValue : RedisServerCommand → RESPValue
  | .Ping => .Array [.BulkString (ascii "PING")]
  | .Echo echo => .Array [.BulkString (ascii "ECHO"), .BulkString echo]
  | .Info .Default => .Array [.BulkString (ascii "INFO")]
  | .Info .Replication =>
      .Array [.BulkString (ascii "INFO"), .BulkString (ascii "replication")]
  | .ReplConf (.Port listening_port) =>
      .Array [.BulkString (ascii "REPLCONF"), .BulkString (ascii "listening-port"),
        .BulkString (natBytes listening_port)]
  | .ReplConf (.Capa capabilities) =>
      .Array ([.BulkString (ascii "REPLCONF"), .BulkString (ascii "capa")] ++
        capabilities.map .BulkString)
  | .ReplConf .GetAck =>
      .Array [.BulkString (ascii "REPLCONF"), .BulkString (ascii "GETACK"),
        .BulkString (ascii "*")]
  | .PSync replication_id replication_offset =>
      .Array [.BulkString (ascii "PSYNC"), .BulkString replication_id,
        .BulkString (intBytes replication_offset)]

/-- Embeds impl From of RedisCommand for RESPValue
(src/redis/resp/command.rs lines 61-68). -/
def commandToRESPValue : RedisCommand → RESPValue
  | .Server command => serverCommandToRESPValue command
  | .Store command => storeCommandToRESPValue command

end resp

namespace encoding

/-- Embeds fn set from src/redis/resp/encoding/command.rs: the byte-level
Set encoder, which pushes PX before the milliseconds; bulk_string/array
are the helpers of encoding/value.rs and the final conversion to Bytes is
the identical encoder covered by encodeValue. -/
def set (key value : ByteSeq) (px : Option Nat) : ByteSeq :=
  encodeValue (.Array ([.BulkString (ascii "SET"), .BulkString key, .BulkString value] ++
    (match px with
     | some millis => [.BulkString (ascii "PX"), .BulkString (natBytes millis)]
     | none => [])))

end encoding

namespace replication

/-- Embeds ReplConfSection from src/redis/replication/command.rs (Port,
Capa, GetAck).  Modelled from the spec: the Ack{processed_bytes} section
matched by handler.rs (its declaring revision of command.rs is not in the
snapshot) per spec section 3's command model. -/
inductive ReplConfSection where
  | Port (listening_port : Nat)
  | Capa (capabilities : List ByteSeq)
  | GetAck
  | Ack (processed_bytes : Nat)

/-- Embeds RedisReplicationCommand from src/redis/replication/command.rs. -/
inductive RedisReplicationCommand where
  | Info (sect : resp.InfoSection)
  | ReplConf (sect : ReplConfSection)
  | PSync (replication_id : ByteSeq) (replication_offset : Int)
  | Wait (num_replicas : Nat) (timeout : Nat)

/-- RedisReplicationCommand::is_getack (src/redis/replication/command.rs
lines 36-47). -/
def RedisReplicationCommand.is_getack : RedisReplicationCommand → Bool
  | .ReplConf .GetAck => true
  | _ => false

/-- The GETACK probe as a RESPValue: the GetAck branch of impl From of
RedisReplicationCommand for RESPValue (src/redis/replication/command.rs
lines 84-90). -/
def getack_value : RESPValue :=
  .Array [.BulkString (ascii "REPLCONF"), .BulkString (ascii "GETACK"),
    .BulkString (ascii "*")]

/-- The encoded GETACK probe, Bytes::from(RESPValue::from(&get_ack_command))
in RedisReplicator::wait. -/
def getack_bytes : ByteSeq := encodeValue getack_value

/-- The reply RedisReplicator::getack (src/redis/replication/handler.rs
lines 119-137) writes on a replica: the RESP array REPLCONF ACK
<processed_bytes>. -/
def getack_reply (processed_bytes : Nat) : ByteSeq :=
  encodeValue (.Array [.BulkString (ascii "REPLCONF"), .BulkString (ascii "ACK"),
    .BulkString (natBytes processed_bytes)])

/-- Embeds ReplicaInfo (src/redis/replication/mod.rs) restricted to the
state the WAIT path reads: the Acker's acked_bytes.  The id and write
handle do not influence the counting. -/
structure ReplicaInfo where
  acked_bytes : Nat

/-- The Primary fields of RedisReplicationMode (src/redis/replication/mod.rs)
that RedisReplicator::wait touches; replicas lists the map's values in
iteration order. -/
structure PrimaryState where
  replicas : List ReplicaInfo
  replicated_bytes : Nat

/-- The acked-replica count of RedisReplicator::wait:
replicas.values().filter(acker.get_bytes() == replicated_bytes).count(). -/
def count_acked (s : PrimaryState) : Nat :=
  (s.replicas.filter (fun replica_info =>
    replica_info.acked_bytes == s.replicated_bytes)).length

/-- format!(":{}\r\n", n) - the integer reply WAIT writes. -/
def int_reply (n : Nat) : ByteSeq := 58 :: (natBytes n ++ [13, 10])

/-- What RedisReplicator::wait does synchronously: either the immediate
reply, or the deferred setup (probe bytes written to every replica, the
recorded expected_acked_bytes, and the seed count the spawned task starts
from). -/
inductive WaitAction where
  | immediate (reply : ByteSeq)
  | deferred (probes : List ByteSeq) (expected_acked_bytes : Nat) (seed : Nat)

/-- Embeds RedisReplicator::wait (src/redis/replication/handler.rs lines
152-229): count the replicas whose acked bytes equal replicated_bytes; if
that reaches min(num_replicas, replica count), reply at once; otherwise
bump replicated_bytes by the encoded GETACK length, record
expected_acked_bytes as the pre-bump value (replicated' - len), subscribe
and send the probe to every replica, and hand the seed count to the
spawned reply task. -/
def RedisReplicator.wait (num_replicas _timeout : Nat) (s : PrimaryState) :
    WaitAction × PrimaryState :=
  let bytes := getack_bytes
  let acked_replicas := count_acked s
  let replica_count := s.replicas.length
  if acked_replicas ≥ min num_replicas replica_count then
    (.immediate (int_reply acked_replicas), s)
  else
    let replicated' := s.replicated_bytes + bytes.length
    let expected_acked_bytes := replicated' - bytes.length
    (.deferred (s.replicas.map (fun _ => bytes)) expected_acked_bytes acked_replicas,
      ⟨s.replicas, replicated'⟩)

/-- The JoinSet task spawned per replica in RedisReplicator::wait:
rx.recv().map(|acked_bytes| acked_bytes == expected); none models recv
yielding no value before the task is dropped. -/
def replica_ack_result (expected : Nat) (next_ack : Option Nat) : Option Bool :=
  next_ack.map (fun acked_bytes => acked_bytes == expected)

/-- One select outcome inside the spawned reply task of
RedisReplicator::wait: the freshly created sleep wins (timer), join_next
yields a task result (ack), or join_next returns None (exhausted). -/
inductive WaitEvent where
  | timer
  | ack (is_up_to_date : Bool)
  | exhausted

/-- The reply-task loop of RedisReplicator::wait (handler.rs lines
198-223) as a function of the sequence of select outcomes: each matching
ack bumps the count, and the loop breaks on the timer, on exhaustion, or
once the count reaches num_replicas or replica_count; the returned count
is what gets written as the reply. -/
def wait_task_loop (num_replicas replica_count : Nat) : Nat → List WaitEvent → Nat
  | acked_replicas, [] => acked_replicas
  | acked_replicas, .timer :: _ => acked_replicas
  | acked_replicas, .exhausted :: _ => acked_replicas
  | acked_replicas, .ack is_up_to_date :: events =>
      if is_up_to_date then
        let acked := acked_replicas + 1
        if acked ≥ num_replicas ∨ acked = replica_count then acked
        else wait_task_loop num_replicas replica_count acked events
      else wait_task_loop num_replicas replica_count acked_replicas events

/-- RedisReplicator::handle_command's PSync branch then registers the
issuing connection: add_replica with a fresh Acker::new(0)
(src/redis/replication/handler.rs lines 34-41, mod.rs lines 127-131). -/
def add_replica (s : PrimaryState) : PrimaryState :=
  ⟨s.replicas ++ [⟨0⟩], s.replicated_bytes⟩

end replication

end RedisProof

namespace RedisProof

namespace replication

theorem wait_task_loop_adds (num_replicas replica_count : Nat) :
    ∀ events seed, ∃ k, wait_task_loop num_replicas replica_count seed events = seed + k ∧
      k ≤ (events.filter (fun e => match e with
        | .ack true => true
        | _ => false)).length := by
  intro events
  induction events with
  | nil => intro seed; exact ⟨0, rfl, by simp⟩
  | cons e rest ih =>
      intro seed
      cases e with
      | timer => exact ⟨0, rfl, by simp⟩
      | exhausted => exact ⟨0, rfl, by simp⟩
      | ack b =>
          cases b with
          | false =>
              obtain ⟨k, hk, hle⟩ := ih seed
              refine ⟨k, ?_, ?_⟩
              · rw [wait_task_loop]
                simpa using hk
              · simp only [List.filter_cons]
                simpa using hle
          | true =>
              by_cases hstop : seed + 1 ≥ num_replicas ∨ seed + 1 = replica_count
              · refine ⟨1, ?_, ?_⟩
                · rw [wait_task_loop]
                  simp [hstop]
                · simp [List.filter_cons]
              · obtain ⟨k, hk, hle⟩ := ih (seed + 1)
                refine ⟨k + 1, ?_, ?_⟩
                · rw [wait_task_loop]
                  simp [hstop, hk]
                  all_goals omega
                · simp only [List.filter_cons]
                  simp
                  omega

end replication

end RedisProof

namespace RedisProof

open replication in
/-- Claim C2: on a primary, WAIT n t with acked = number of registered
replicas whose acked_bytes equal the primary's replicated_bytes replies
immediately with the RESP integer :acked when acked reaches
min(n, number of replicas), leaving the state untouched; in particular
WAIT n 0 with no replicas attached replies :0 immediately. -/
theorem c2_wait_immediate (n t : Nat) (s : PrimaryState) :
    (count_acked s ≥ min n s.replicas.length →
      RedisReplicator.wait n t s = (.immediate (int_reply (count_acked s)), s)) ∧
    (s.replicas = [] →
      RedisReplicator.wait n 0 s = (.immediate (ascii ":0\r\n"), s)) := by
  constructor
  · intro h
    rw [RedisReplicator.wait]
    simp only [if_pos h]
  · intro h
    have hc : count_acked s = 0 := by simp [count_acked, h]
    rw [RedisReplicator.wait]
    simp only [hc, h, List.length_nil, Nat.min_zero, ge_iff_le, le_refl, if_pos]
    rfl

open replication in
/-- Witness for c2_wait_immediate: one in-sync replica with WAIT 1 500
(immediate reply :1), and a primary with no replicas and WAIT 3 0
(immediate reply :0). -/
theorem c2_wait_immediate_witness :
    (count_acked ⟨[⟨5⟩], 5⟩ ≥ min 1 (PrimaryState.replicas ⟨[⟨5⟩], 5⟩).length ∧
      RedisReplicator.wait 1 500 ⟨[⟨5⟩], 5⟩ =
        (.immediate (int_reply (count_acked ⟨[⟨5⟩], 5⟩)), ⟨[⟨5⟩], 5⟩)) ∧
    RedisReplicator.wait 3 0 ⟨[], 7⟩ = (.immediate (ascii ":0\r\n"), ⟨[], 7⟩) :=
  ⟨⟨by decide, (c2_wait_immediate 1 500 ⟨[⟨5⟩], 5⟩).1 (by decide)⟩,
    (c2_wait_immediate 3 0 ⟨[], 7⟩).2 rfl⟩

open replication in
/-- Claim C3, counterexample: the final :count reply does not count a
replica if and only if its next published ack equals expected.  Primary
state: replicas with acked bytes 10 and 5, replicated_bytes 10; WAIT 2
takes the deferred path with seed count 1; if no ack is published before
the deadline (both rx.recv() outcomes none), the reply task still
returns 1, although the number of replicas whose next published ack
equals expected (= 10) is 0. -/
theorem c3_wait_count_counterexample :
    RedisReplicator.wait 2 500 ⟨[⟨10⟩, ⟨5⟩], 10⟩ =
      (.deferred [getack_bytes, getack_bytes] 10 1, ⟨[⟨10⟩, ⟨5⟩], 47⟩) ∧
    wait_task_loop 2 2 1 [] = 1 ∧
    (([(none : Option Nat), none].map (replica_ack_result 10)).filter
      (fun r => r == some true)).length = 0 ∧
    (1 : Nat) ≠ 0 :=
  ⟨rfl, rfl, rfl, by decide⟩

open replication in
/-- Claim C3 (amended): on the deferred path WAIT sends the encoded
REPLCONF GETACK * probe (37 bytes) to every registered replica, increments
replicated_bytes by its length, records expected_acked_bytes as the value
replicated_bytes held before the increment, and spawns one task per
replica that yields true exactly when the next acked_bytes published on
that replica's ack observable equals expected; the final :count reply is
the immediate seed count plus the number of true task results consumed
before the loop exits (deadline, exhaustion, or reaching the target), so
acks are counted only if they equal expected, on top of the seed. -/
theorem c3_wait_deferred (n t : Nat) (s : PrimaryState)
    (h : ¬ count_acked s ≥ min n s.replicas.length) :
    RedisReplicator.wait n t s =
      (.deferred (s.replicas.map (fun _ => getack_bytes)) s.replicated_bytes
        (count_acked s), ⟨s.replicas, s.replicated_bytes + getack_bytes.length⟩) ∧
    getack_bytes.length = 37 ∧
    (∀ a, replica_ack_result s.replicated_bytes (some a) =
      some (decide (a = s.replicated_bytes))) ∧
    (replica_ack_result s.replicated_bytes none = none) ∧
    (∀ events seed, ∃ k,
      wait_task_loop n s.replicas.length seed events = seed + k ∧
      k ≤ (events.filter (fun e => match e with
        | .ack true => true
        | _ => false)).length) := by
  refine ⟨?_, rfl, fun a => ?_, rfl, fun events seed => wait_task_loop_adds _ _ events seed⟩
  · rw [RedisReplicator.wait]
    simp only [if_neg h]
    have harith : s.replicated_bytes + getack_bytes.length - getack_bytes.length =
        s.replicated_bytes := by omega
    rw [harith]
  · rw [replica_ack_result, Option.map_some']
    by_cases hab : a = s.replicated_bytes <;> simp [hab]

open replication in
/-- Witness for c3_wait_deferred: one lagging replica (acked 3,
replicated 10), WAIT 1 100. -/
theorem c3_wait_deferred_witness :
    (¬ count_acked ⟨[⟨3⟩], 10⟩ ≥ min 1 (PrimaryState.replicas ⟨[⟨3⟩], 10⟩).length) ∧
    RedisReplicator.wait 1 100 ⟨[⟨3⟩], 10⟩ =
      (.deferred [getack_bytes] 10 0, ⟨[⟨3⟩], 47⟩) :=
  ⟨by decide, by
    have h := (c3_wait_deferred 1 100 ⟨[⟨3⟩], 10⟩ (by decide)).1
    simpa using h⟩

open replication in
/-- Claim C4 evidence: the reply task races a sleep of exactly timeout_ms
milliseconds - recreated on every loop iteration - against join_next.
With timeout 0 the sleep is ready immediately, so the select's timer arm
can fire as the first event, and the task replies with the seed count at
once instead of waiting indefinitely: here WAIT 1 0 over one lagging
replica (seed 0) replies :0 without consuming any ack. -/
theorem c4_zero_timeout_replies_immediately :
    wait_task_loop 1 1 0 [.timer] = 0 ∧
    int_reply 0 = ascii ":0\r\n" ∧
    RedisReplicator.wait 1 0 ⟨[⟨3⟩], 10⟩ =
      (.deferred [getack_bytes] 10 0, ⟨[⟨3⟩], 47⟩) :=
  ⟨rfl, rfl, rfl⟩

end RedisProof

namespace RedisProof

namespace latest

/-- Modelled from the spec: the newest-generation resp::command command
grouping (spec section 3, Command model) whose declaring revision of
resp/command.rs is not in the snapshot; Store commands are Get, Set, Keys,
Type (TypeCmd here) and XAdd, Server commands Ping, Echo and Config Get.
Only the grouping matters to the handshake loop's guard. -/
inductive RedisStoreCommand where
  | Get (key : ByteSeq)
  | Set (key value : ByteSeq) (px : Option Nat)
  | Keys (pattern : ByteSeq)
  | TypeCmd (key : ByteSeq)
  | XAdd (key entry_id : ByteSeq) (fields : List (ByteSeq × ByteSeq))

/-- Modelled from the spec: CONFIG GET keys (spec section 3). -/
inductive ConfigSection where
  | Get (keys : List ByteSeq)

/-- Modelled from the spec: the newest-generation Server command group
(spec section 3). -/
inductive RedisServerCommand where
  | Ping
  | Echo (message : ByteSeq)
  | Config (sect : ConfigSection)

/-- The newest-generation RedisCommand: Store / Server / Replication
groups; the Replication group is replication/command.rs from the
snapshot, the other two are modelled from the spec (section 3). -/
inductive RedisCommand where
  | Store (command : RedisStoreCommand)
  | Server (command : RedisServerCommand)
  | Replication (command : replication.RedisReplicationCommand)

end latest

/-- The post-handshake read-loop body on a replica
(src/redis/replication/handshake.rs lines 119-143, the task spawned by
send_psync): a command read from the primary keeps its write handle open
exactly when it is a Replication command with is_getack; every other
command's handle is closed (silenced) before the packet is dispatched,
and a silenced handle discards every submission (spec section 4.E; the
newest RedisWriteStream is not in the snapshot).  dispatch_reply stands
for whatever bytes the dispatcher would write for the command - for
REPLCONF GETACK that is RedisReplicator::getack's reply. -/
def handshake_loop_step (dispatch_reply : latest.RedisCommand → Nat → ByteSeq)
    (command : latest.RedisCommand) (processed_bytes : Nat) : Bool × ByteSeq :=
  let silenced : Bool :=
    match command with
    | .Replication c => !c.is_getack
    | _ => true
  let sent := if silenced then [] else dispatch_reply command processed_bytes
  (silenced, sent)

theorem is_getack_iff (c : replication.RedisReplicationCommand) :
    c.is_getack = true ↔ c = .ReplConf .GetAck := by
  cases c with
  | ReplConf sect => cases sect <;> simp [replication.RedisReplicationCommand.is_getack]
  | Info sect => simp [replication.RedisReplicationCommand.is_getack]
  | PSync a b => simp [replication.RedisReplicationCommand.is_getack]
  | Wait a b => simp [replication.RedisReplicationCommand.is_getack]

open replication in
/-- Claim C5: on a replica, among the commands read from the primary
connection after handshake completion, REPLCONF GETACK * is the only one
that ever produces bytes written back to the primary; its reply is the
RESP array encoding of REPLCONF ACK <processed_bytes> (getack_reply), and
for every other command the write handle is silenced before dispatch and
nothing is sent. -/
theorem c5_replica_replies_only_getack
    (dispatch_reply : latest.RedisCommand → Nat → ByteSeq)
    (hdisp : ∀ p, dispatch_reply (.Replication (.ReplConf .GetAck)) p = getack_reply p)
    (command : latest.RedisCommand) (p : Nat) :
    ((handshake_loop_step dispatch_reply command p).2 ≠ [] →
      command = .Replication (.ReplConf .GetAck) ∧
      (handshake_loop_step dispatch_reply command p).2 = getack_reply p) ∧
    (command = .Replication (.ReplConf .GetAck) →
      (handshake_loop_step dispatch_reply command p).1 = false ∧
      (handshake_loop_step dispatch_reply command p).2 = getack_reply p) ∧
    (command ≠ .Replication (.ReplConf .GetAck) →
      (handshake_loop_step dispatch_reply command p).1 = true ∧
      (handshake_loop_step dispatch_reply command p).2 = []) := by
  refine ⟨?_, ?_, ?_⟩
  · intro hne
    cases command with
    | Store c => simp [handshake_loop_step] at hne
    | Server c => simp [handshake_loop_step] at hne
    | Replication c =>
        by_cases hg : c.is_getack = true
        · have hc := (is_getack_iff c).mp hg
          subst hc
          exact ⟨rfl, by simp [handshake_loop_step,
            replication.RedisReplicationCommand.is_getack, hdisp p]⟩
        · simp [handshake_loop_step, hg] at hne
  · intro hc
    subst hc
    simp [handshake_loop_step, replication.RedisReplicationCommand.is_getack, hdisp p]
  · intro hne
    cases command with
    | Store c => simp [handshake_loop_step]
    | Server c => simp [handshake_loop_step]
    | Replication c =>
        have hg : c.is_getack = false := by
          cases hb : c.is_getack
          · rfl
          · exact absurd (congrArg latest.RedisCommand.Replication
              ((is_getack_iff c).mp hb)) hne
        simp [handshake_loop_step, hg]

open replication in
/-- Witness for c5_replica_replies_only_getack: a dispatcher that answers
GETACK with getack_reply, evaluated at the GETACK command itself. -/
theorem c5_replica_replies_only_getack_witness :
    (handshake_loop_step (fun _ p => getack_reply p)
        (.Replication (.ReplConf .GetAck)) 37).1 = false ∧
    (handshake_loop_step (fun _ p => getack_reply p)
        (.Replication (.ReplConf .GetAck)) 37).2 = getack_reply 37 ∧
    (handshake_loop_step (fun _ p => getack_reply p)
        (.Store (.Set (ascii "k") (ascii "v") none)) 37).2 = [] :=
  ⟨((c5_replica_replies_only_getack (fun _ p => getack_reply p) (fun _ => rfl)
      (.Replication (.ReplConf .GetAck)) 37).2.1 rfl).1,
   ((c5_replica_replies_only_getack (fun _ p => getack_reply p) (fun _ => rfl)
      (.Replication (.ReplConf .GetAck)) 37).2.1 rfl).2,
   ((c5_replica_replies_only_getack (fun _ p => getack_reply p) (fun _ => rfl)
      (.Store (.Set (ascii "k") (ascii "v") none)) 37).2.2 (by simp)).2⟩

end RedisProof

namespace RedisProof

/-- Origin of a RedisCommandPacket: the handshake-spawned primary loop or
an accepted client connection.  manager.rs's RedisCommandPacket carries no
such tag, so the dispatcher below ignores it - which is what claim C6
turns on. -/
inductive ClientSource where
  | primary
  | client (id : Nat)

/-- The replica-mode tail of RedisManager::start's dispatch loop
(src/redis/manager.rs lines 123-130): after the command is handled,
processed_bytes += Bytes::from(RESPValue::from(&command)).len(), for every
packet taken off the channel whatever connection produced it.
RedisReplication::post_command_hook (src/redis/replication/mod.rs lines
117-125) is the same increment in the newest generation. -/
def manager_replica_step (_source : ClientSource) (processed_bytes : Nat)
    (command : resp.RedisCommand) : Nat :=
  processed_bytes + (encodeValue (resp.commandToRESPValue command)).length

/-- The replica-mode dispatcher loop of RedisManager::start consuming a
sequence of packets from the command channel. -/
def manager_replica_run (processed_bytes : Nat) :
    List (ClientSource × resp.RedisCommand) → Nat
  | [] => processed_bytes
  | packet :: rest =>
      manager_replica_run (manager_replica_step packet.1 processed_bytes packet.2) rest

/-- Claim C6, counterexample: a PING arriving from an ordinary client
connection (client id 7) on a replica does not leave processed_bytes
unchanged - the dispatcher adds the 14 bytes of the command's RESP
encoding, because manager.rs's loop increments for every dispatched
packet without looking at its origin. -/
theorem c6_client_commands_counted_counterexample :
    manager_replica_step (.client 7) 0 (.Server .Ping) = 14 ∧
    (14 : Nat) ≠ 0 ∧
    encodeValue (resp.commandToRESPValue (.Server .Ping)) =
      ascii "*1\r\n$4\r\nPING\r\n" :=
  ⟨rfl, by decide, rfl⟩

/-- Claim C6 (amended): on a replica, processed_bytes grows by the length
of the RESP encoding of every command the dispatcher handles, the
increment applied after the command is handled, regardless of whether the
packet came from the primary connection or an ordinary client; so after
any run it equals the starting value plus the summed encoded lengths of
all dispatched commands. -/
theorem c6_processed_bytes_cumulative :
    ∀ (packets : List (ClientSource × resp.RedisCommand)) (p : Nat),
      manager_replica_run p packets =
        p + (packets.map
          (fun packet => (encodeValue (resp.commandToRESPValue packet.2)).length)).sum := by
  intro packets
  induction packets with
  | nil => intro p; simp [manager_replica_run]
  | cons packet rest ih =>
      intro p
      rw [manager_replica_run, ih, List.map_cons, List.sum_cons]
      rw [manager_replica_step]
      omega

end RedisProof

namespace RedisProof

namespace replication

/-- The fixed hex string EMPTY_RDB_HEX of
src/redis/replication/handler.rs (line 17). -/
def EMPTY_RDB_HEX : String := "524544495330303131fa0972656469732d76657205372e322e30fa0a72656469732d62697473c040fa056374696d65c26d08bc65fa08757365642d6d656dc2b0c41000fa08616f662d62617365c000fff06e3bfec0ff5aa2"

/-- u8::from_str_radix(_, 16) on a single hex digit character. -/
def hex_digit_value (c : Char) : Option Nat :=
  if '0' ≤ c ∧ c ≤ '9' then some (c.toNat - 48)
  else if 'a' ≤ c ∧ c ≤ 'f' then some (c.toNat - 87)
  else if 'A' ≤ c ∧ c ≤ 'F' then some (c.toNat - 55)
  else none

/-- The hex decoding loop of RedisReplicator::psync:
(0..len).step_by(2).map(|i| u8::from_str_radix(&hex[i..i+2], 16)) collected
into bytes; an odd tail would make the two-character slice fall off the
end. -/
def decode_hex_pairs : List Char → Option ByteSeq
  | [] => some []
  | [_] => none
  | c1 :: c2 :: rest =>
      (hex_digit_value c1).bind (fun hi =>
        (hex_digit_value c2).bind (fun lo =>
          (decode_hex_pairs rest).map (fun bytes => (16 * hi + lo) :: bytes)))

/-- The decoded empty-RDB snapshot rdb_file of RedisReplicator::psync. -/
def rdb_file : Option ByteSeq := decode_hex_pairs EMPTY_RDB_HEX.toList

/-- Embeds RedisReplicator::psync (src/redis/replication/handler.rs lines
92-117) on a primary: the two writes it performs - the
+FULLRESYNC <id> <offset>\r\n line, then the bulk-length prefix
$<n>\r\n immediately followed by the n raw RDB bytes with no trailing
CRLF; none models the ? propagation were the hex decode to fail. -/
def RedisReplicator.psync (replication_id : ByteSeq) (replication_offset : Nat) :
    Option (List ByteSeq) :=
  rdb_file.map (fun rdb =>
    [ascii "+FULLRESYNC " ++ replication_id ++ (32 :: natBytes replication_offset)
      ++ [13, 10],
     36 :: (natBytes rdb.length ++ [13, 10] ++ rdb)])

end replication

set_option maxRecDepth 16384 in
open replication in
/-- Claim C7: on a primary every PSYNC is answered with
+FULLRESYNC <replication_id> <replication_offset>\r\n followed by $n\r\n
and exactly the n raw bytes of the fixed empty RDB snapshot with no
trailing CRLF; the snapshot is 88 bytes long and begins with the ASCII
magic REDIS0011, and the issuing connection is then registered as a
replica (add_replica appends it with a fresh Acker at 0, leaving
replicated_bytes unchanged). -/
theorem c7_psync_reply (replication_id : ByteSeq) (replication_offset : Nat)
    (s : PrimaryState) :
    ∃ rdb, rdb_file = some rdb ∧ rdb.length = 88 ∧
      rdb.take 9 = ascii "REDIS0011" ∧
      RedisReplicator.psync replication_id replication_offset =
        some [ascii "+FULLRESYNC " ++ replication_id ++
            (32 :: natBytes replication_offset) ++ [13, 10],
          36 :: (natBytes 88 ++ [13, 10] ++ rdb)] ∧
      add_replica s = ⟨s.replicas ++ [⟨0⟩], s.replicated_bytes⟩ := by
  cases hr : rdb_file with
  | none => exact absurd hr (by decide)
  | some rdb =>
      have h1 : rdb_file.map List.length = some 88 := by decide
      rw [hr, Option.map_some'] at h1
      have hlen : rdb.length = 88 := Option.some.inj h1
      have h2 : rdb_file.map (List.take 9) = some (ascii "REDIS0011") := by decide
      rw [hr, Option.map_some'] at h2
      refine ⟨rdb, rfl, hlen, Option.some.inj h2, ?_, rfl⟩
      rw [RedisReplicator.psync, hr, Option.map_some', hlen]

end RedisProof

namespace RedisProof

namespace store

/-- Embeds StoreValue from src/redis/store.rs: the value bytes and the
optional expiration; SystemTime instants are naturals on one clock. -/
structure StoreValue where
  value : ByteSeq
  expiration : Option Nat

/-- The values HashMap of RedisStore (src/redis/store.rs) as an
association list; a map never binds a key twice, lookup takes the first
binding and removal drops every binding of the key, so the two agree on
any list that represents a map. -/
abbrev StoreMap := List (ByteSeq × StoreValue)

/-- HashMap::get by key. -/
def values_get (values : StoreMap) (key : ByteSeq) : Option StoreValue :=
  (values.find? (fun kv => kv.1 == key)).map (fun kv => kv.2)

/-- HashMap::remove by key. -/
def values_remove (values : StoreMap) (key : ByteSeq) : StoreMap :=
  values.filter (fun kv => !(kv.1 == key))

/-- Embeds RedisStore::get (src/redis/store.rs lines 149-167) with the
write to the client factored out: the returned RESPValue is what gets
written, the returned map the store afterwards.  The arms mirror the
source match: an entry whose expiration is at or before now is removed
and answered NullBulkString; any other present entry answers
BulkString(value); an absent key answers NullBulkString. -/
def RedisStore.get (values : StoreMap) (key : ByteSeq) (now : Nat) :
    RESPValue × StoreMap :=
  match values_get values key with
  | some sv =>
      match sv.expiration with
      | some expiration =>
          if expiration ≤ now then (.NullBulkString, values_remove values key)
          else (.BulkString sv.value, values)
      | none => (.BulkString sv.value, values)
  | none => (.NullBulkString, values)

theorem values_get_remove (values : StoreMap) (key : ByteSeq) :
    values_get (values_remove values key) key = none := by
  induction values with
  | nil => rfl
  | cons kv rest ih =>
      rw [values_remove, List.filter_cons]
      by_cases hk : kv.1 == key
      · simp only [hk, Bool.not_true]
        exact ih
      · have hk2 : (kv.1 == key) = false := by
          cases hb : kv.1 == key
          · rfl
          · exact absurd hb hk
        simp only [hk2, Bool.not_false, if_true]
        rw [values_get, List.find?]
        simp only [hk2]
        exact ih

end store

open store in
/-- Claim C8: for every key, GET of an absent key returns NullBulkString
leaving the store as is; GET of a key whose entry carries expiry T,
issued strictly after wall-clock T, returns NullBulkString and removes
the entry (a subsequent lookup finds nothing); GET of a present,
unexpired string entry returns BulkString of its value and leaves the
store unchanged. -/
theorem c8_get_expiry (values : StoreMap) (key : ByteSeq) (now : Nat) :
    (values_get values key = none →
      RedisStore.get values key now = (.NullBulkString, values)) ∧
    (∀ sv T, values_get values key = some sv → sv.expiration = some T → T < now →
      RedisStore.get values key now = (.NullBulkString, values_remove values key) ∧
      values_get (RedisStore.get values key now).2 key = none) ∧
    (∀ sv, values_get values key = some sv →
      (sv.expiration = none ∨ ∃ T, sv.expiration = some T ∧ now < T) →
      RedisStore.get values key now = (.BulkString sv.value, values)) := by
  refine ⟨?_, ?_, ?_⟩
  · intro h
    rw [RedisStore.get, h]
  · intro sv T hget hexp hlt
    obtain ⟨val, exp⟩ := sv
    simp only at hexp
    subst hexp
    have hle : T ≤ now := by omega
    have hres : RedisStore.get values key now =
        (.NullBulkString, values_remove values key) := by
      rw [RedisStore.get, hget]
      simp [hle]
    exact ⟨hres, by rw [hres]; exact values_get_remove values key⟩
  · intro sv hget hfresh
    obtain ⟨val, exp⟩ := sv
    rcases hfresh with hnone | ⟨T, hT, hnow⟩
    · simp only at hnone
      subst hnone
      rw [RedisStore.get, hget]
    · simp only at hT
      subst hT
      have hgt : ¬ T ≤ now := by omega
      rw [RedisStore.get, hget]
      simp [hgt]

open store in
/-- Witness for c8_get_expiry: a two-entry store; the key k1 expired at 100
and is fetched at 150, k2 expires at 900 and is fetched at 150, k3 is
absent. -/
theorem c8_get_expiry_witness :
    (values_get [(ascii "k1", ⟨ascii "a", some 100⟩), (ascii "k2", ⟨ascii "b", some 900⟩)]
        (ascii "k3") = none ∧
      RedisStore.get [(ascii "k1", ⟨ascii "a", some 100⟩), (ascii "k2", ⟨ascii "b", some 900⟩)]
        (ascii "k3") 150 =
        (.NullBulkString,
          [(ascii "k1", ⟨ascii "a", some 100⟩), (ascii "k2", ⟨ascii "b", some 900⟩)])) ∧
    (RedisStore.get [(ascii "k1", ⟨ascii "a", some 100⟩), (ascii "k2", ⟨ascii "b", some 900⟩)]
        (ascii "k1") 150 =
        (.NullBulkString, [(ascii "k2", ⟨ascii "b", some 900⟩)]) ∧
      values_get (RedisStore.get
        [(ascii "k1", ⟨ascii "a", some 100⟩), (ascii "k2", ⟨ascii "b", some 900⟩)]
        (ascii "k1") 150).2 (ascii "k1") = none) ∧
    RedisStore.get [(ascii "k1", ⟨ascii "a", some 100⟩), (ascii "k2", ⟨ascii "b", some 900⟩)]
        (ascii "k2") 150 =
      (.BulkString (ascii "b"),
        [(ascii "k1", ⟨ascii "a", some 100⟩), (ascii "k2", ⟨ascii "b", some 900⟩)]) := by
  refine ⟨⟨rfl, ?_⟩, ?_, ?_⟩
  · exact (c8_get_expiry _ (ascii "k3") 150).1 rfl
  · exact (c8_get_expiry _ (ascii "k1") 150).2.1 ⟨ascii "a", some 100⟩ 100 rfl rfl
      (by omega)
  · exact (c8_get_expiry _ (ascii "k2") 150).2.2 ⟨ascii "b", some 900⟩ rfl
      (Or.inr ⟨900, rfl, by omega⟩)

/-- Claim C9 evidence: the two Set encoders disagree when an expiry is
present.  The dispatcher's fan-out conversion
(impl From of RedisStoreCommand for RESPValue, resp/command.rs) pushes the
literal SET where the expiry marker belongs, while the byte-level encoder
(encoding/command.rs set) pushes PX; with key k, value v and 1000 ms the
two byte sequences differ, and the replica's Set parser, which looks for
the lowercase named argument px, recognises neither marker and drops the
expiry.  Without an expiry the two encoders agree. -/
theorem c9_set_encoders_disagree :
    resp.storeCommandToRESPValue (.Set (ascii "k") (ascii "v") (some 1000)) =
      .Array [.BulkString (ascii "SET"), .BulkString (ascii "k"),
        .BulkString (ascii "v"), .BulkString (ascii "SET"),
        .BulkString (ascii "1000")] ∧
    encoding.set (ascii "k") (ascii "v") (some 1000) =
      encodeValue (.Array [.BulkString (ascii "SET"), .BulkString (ascii "k"),
        .BulkString (ascii "v"), .BulkString (ascii "PX"),
        .BulkString (ascii "1000")]) ∧
    encodeValue (resp.storeCommandToRESPValue (.Set (ascii "k") (ascii "v") (some 1000)))
      ≠ encoding.set (ascii "k") (ascii "v") (some 1000) ∧
    encodeValue (resp.storeCommandToRESPValue (.Set (ascii "k") (ascii "v") none)) =
      encoding.set (ascii "k") (ascii "v") none :=
  ⟨rfl, rfl, by decide, rfl⟩

end RedisProof
